import Mathlib

/-!
# Verification of the Alpha-Data-Cleaning-Lab refinement pipeline

A shallow embedding, in exact rational arithmetic, of the per-symbol
feature-refinement pipeline in `core_engine.py` and the market rule
classes in `market_rules.py`, together with proofs and refutations of the
stated behavioural properties.

Conventions:
* pandas `NaN` cells are modelled as `Option.none`;
* machine floats are idealised as `ℚ` (the spec's prices are exact
  decimals, and no claim exercises a binary-rounding boundary);
* the dataframe's localized column names are transliterated:
  `日期 ↦ date`, `開盤 ↦ opn`, `最高 ↦ high`, `最低 ↦ low`,
  `收盤 ↦ close`, `成交量 ↦ volume`;
* a pandas dataframe is a `List` of rows, in row order; `groupby`
  operations are modelled positionally, exactly as pandas applies them
  (per-key, preserving row positions, independent of group contiguity).
-/

namespace AlphaLab

/-- Round-half-to-even on rationals: the rounding mode of `numpy.round` /
Python `round`, used by `(df['PrevClose'] * 1.1).round(2)`. -/
def roundHalfEven (q : ℚ) : ℤ :=
  let f : ℤ := Rat.floor q
  if q - f < 1/2 then f
  else if 1/2 < q - f then f + 1
  else if f % 2 = 0 then f else f + 1

/-- `round(x, 2)`: round to two decimal places, half to even. -/
def round2 (q : ℚ) : ℚ := (roundHalfEven (q * 100) : ℚ) / 100

/-- A row as read by `BaseRules.classify_lu_type4` (market_rules.py:25):
the plainly indexed columns `開盤`, `最高`, `最低`, `PrevClose` (direct
`row[...]` accesses, so the model requires the values), and `Vol_Ratio`,
accessed with `row.get('Vol_Ratio', 0)` so a missing cell is an `Option`. -/
structure LRow where
  opn : ℚ
  high : ℚ
  low : ℚ
  PrevClose : ℚ
  Vol_Ratio : Option ℚ
deriving DecidableEq

/-- `BaseRules.classify_lu_type4` (market_rules.py:25-39): behavioural
subtype of a limit-up day, first match wins:
1 locked-open, 2 gap-up, 3 high turnover, 4 ordinary. -/
def classify_lu_type4 (row : LRow) (limit_price : ℚ) : Nat :=
  if limit_price - 1/100 ≤ row.opn ∧ row.high = row.low then 1
  else if (7:ℚ)/100 ≤ row.opn / row.PrevClose - 1 then 2
  else if (3:ℚ) ≤ (row.Vol_Ratio.getD 0) then 3
  else 4

/-- A row as read by `BaseRules.classify_fail_type` (market_rules.py:41):
`收盤`, `Ret_Day`, `最高` are direct accesses; `Limit_Price`,
`is_limit_up`, `Overnight_Alpha` are `row.get(...)` accesses with defaults
(`row['收盤']`, `False`, `0` respectively), so missing cells are `Option`s. -/
structure FRow where
  close : ℚ
  high : ℚ
  Ret_Day : ℚ
  Limit_Price : Option ℚ
  is_limit_up : Option Bool
  Overnight_Alpha : Option ℚ
deriving DecidableEq

/-- `BaseRules.classify_fail_type` (market_rules.py:41-57): day-after
failure subtype, first match wins: 1 collapse, 2 rejected at the ceiling,
4 no premium, 0 neutral.  A missing `Limit_Price` defaults to the row's
close (`row.get('Limit_Price', row['收盤'])`). -/
def classify_fail_type (row : FRow) : Nat :=
  let limit_p := row.Limit_Price.getD row.close
  if row.Ret_Day ≤ -(5:ℚ)/100 then 1
  else if limit_p ≤ row.high ∧ ¬(row.is_limit_up.getD false) then 2
  else if row.Overnight_Alpha.getD 0 ≤ 0 then 4
  else 0

/-! ## The working frame and pandas `groupby` semantics

`calculate_returns`, `calculate_sequence_counts` and
`_apply_market_type_adjustments` all act through
`df.groupby('StockID')[col].shift(1)` / `.transform(f)`.  pandas assigns
to each row a value computed from the sub-series of rows sharing its key,
at the row's rank inside that sub-series, regardless of whether groups
are contiguous; `groupApply` is exactly that semantics. -/

/-- A row of the engine's working frame as the `calculate_*` stages read
it: the grouping key `StockID`, the price columns they divide, and the
boolean limit-up qualification column they shift and run-count (`日期`,
`最低`, `成交量`, … are not read by the modelled stages). -/
structure Row where
  StockID : String
  opn : ℚ
  high : ℚ
  close : ℚ
  is_limit_up : Bool
deriving DecidableEq

/-- Rows before the current one (`pre`) determine the current row's rank
inside its group; the group itself is drawn from the `whole` frame. -/
def groupApplyAux (key : ρ → String) (g : List ρ → Nat → β) (whole : List ρ) :
    List ρ → List ρ → List β
  | _,  [] => []
  | pre, r :: rs =>
      g (whole.filter (fun q => decide (key q = key r)))
        (pre.countP (fun q => decide (key q = key r))) ::
      groupApplyAux key g whole (pre ++ [r]) rs

/-- `df.groupby(key)` applied positionally: row `i` receives
`g group rank`, where `group` lists every row of the frame with row `i`'s
key, in row order, and `rank` counts the earlier rows with that key. -/
def groupApply (key : ρ → String) (g : List ρ → Nat → β) (df : List ρ) : List β :=
  groupApplyAux key g df [] df

/-- Grouped `shift(1)`: each row receives the previous same-key row's
value, `NaN` (`none`) at each group's first row. -/
def groupShift1 (key : ρ → String) (f : ρ → α) (df : List ρ) : List (Option α) :=
  groupApply key (fun grp rank => if rank = 0 then none else (grp.map f)[rank - 1]?) df

/-- The previous element at every position, seeded with `a` at the head:
the spec's reading of a one-step shift of an ordered series. -/
def prevElems (a : Option α) : List α → List (Option α)
  | [] => []
  | x :: xs => a :: prevElems (some x) xs

/-- The filter `df[df.StockID == s]`: one symbol's sub-frame, in row
(hence date) order. -/
def symRows (df : List Row) (s : String) : List Row :=
  df.filter (fun r => decide (r.StockID = s))

/-- A derived column restricted to one symbol's rows, in row order:
pair each row with its cell, keep symbol `s`, read off the cells. -/
def symColView (col : List Row → List β) (df : List Row) (s : String) : List β :=
  ((df.zip (col df)).filter (fun p => decide (p.1.StockID = s))).map Prod.snd

theorem groupApplyAux_length (key : ρ → String) (g : List ρ → Nat → β) (whole : List ρ) :
    ∀ (rest pre : List ρ), (groupApplyAux key g whole pre rest).length = rest.length := by
  intro rest
  induction rest with
  | nil => intro pre; rfl
  | cons r rs ih => intro pre; simp [groupApplyAux, ih]

theorem groupApply_length (key : ρ → String) (g : List ρ → Nat → β) (df : List ρ) :
    (groupApply key g df).length = df.length :=
  groupApplyAux_length key g df df []

/-- The per-symbol reading of a grouped positional operation: restricted
to the rows of symbol `s`, the output cells are `g group 0, g group 1, …`
over that symbol's own sub-frame — values never cross symbol boundaries. -/
theorem groupApplyAux_symView (key : ρ → String) (g : List ρ → Nat → β) (whole : List ρ)
    (s : String) :
    ∀ (rest pre : List ρ),
      ((rest.zip (groupApplyAux key g whole pre rest)).filter
          (fun p => decide (key p.1 = s))).map Prod.snd
        = (List.range' (pre.countP (fun q => decide (key q = s)))
            (rest.countP (fun q => decide (key q = s)))).map
              (g (whole.filter (fun q => decide (key q = s)))) := by
  intro rest
  induction rest with
  | nil => intro pre; simp [groupApplyAux]
  | cons r rs ih =>
      intro pre
      by_cases hk : key r = s
      · subst hk
        simp [groupApplyAux, List.filter_cons, List.countP_cons, ih, List.countP_append,
          List.range'_succ]
      · simp [groupApplyAux, List.filter_cons, hk, List.countP_cons, ih, List.countP_append]

/-- `groupApply` restricted to one key lists `g group k` for
`k = 0, …, group.length - 1` over that key's own sub-frame. -/
theorem groupApply_symView (key : ρ → String) (g : List ρ → Nat → β) (df : List ρ)
    (s : String) :
    ((df.zip (groupApply key g df)).filter (fun p => decide (key p.1 = s))).map Prod.snd
      = (List.range (df.filter (fun q => decide (key q = s))).length).map
          (g (df.filter (fun q => decide (key q = s)))) := by
  have h := groupApplyAux_symView key g df s df []
  simpa [groupApply, List.range_eq_range', List.countP_eq_length_filter] using h

theorem prevElems_length (a : Option α) (l : List α) :
    (prevElems a l).length = l.length := by
  induction l generalizing a with
  | nil => rfl
  | cons x xs ih => simp [prevElems, ih]

theorem prevElems_head (a : Option α) (l : List α) :
    (prevElems a l)[0]? = l.head?.map (fun _ => a) := by
  cases l <;> simp [prevElems]

theorem prevElems_succ (l : List α) (a : Option α) (i : Nat) (h : i + 1 < l.length) :
    (prevElems a l)[i + 1]? = some l[i]? := by
  induction l generalizing a i with
  | nil => simp at h
  | cons x xs ih =>
      cases i with
      | zero =>
          cases xs with
          | nil => simp at h
          | cons z zs => simp [prevElems]
      | succ j =>
          simp only [List.length_cons] at h
          have := ih (some x) j (by omega)
          simpa [prevElems] using this

theorem range_map_getElem?_cons (l : List α) (y : α) :
    (List.range l.length).map (fun k => (y :: l)[k]?) = prevElems (some y) l := by
  induction l generalizing y with
  | nil => rfl
  | cons z zs ih =>
      simp only [List.length_cons, List.range_succ_eq_map, List.map_cons, List.map_map,
        Function.comp_def, List.getElem?_cons_succ, List.getElem?_cons_zero]
      exact congrArg₂ _ rfl (ih z)

/-- The positional reading of a grouped one-step shift is `prevElems`. -/
theorem range_map_shift_cell (l : List α) :
    (List.range l.length).map (fun k => if k = 0 then none else l[k - 1]?)
      = prevElems none l := by
  cases l with
  | nil => rfl
  | cons x xs =>
      simp only [List.length_cons, List.range_succ_eq_map, List.map_cons, List.map_map,
        Function.comp_def, prevElems]
      refine congrArg₂ _ rfl ?_
      have h := range_map_getElem?_cons xs x
      simpa using h

theorem range_map_getD (l : List γ) (d : γ) :
    (List.range l.length).map (fun k => l.getD k d) = l := by
  induction l with
  | nil => rfl
  | cons x xs ih =>
      simp only [List.length_cons, List.range_succ_eq_map, List.map_cons, List.map_map,
        Function.comp_def, List.getD_cons_succ, List.getD_cons_zero]
      exact congrArg₂ _ rfl ih

/-- Restricting a mapped column to a symbol is mapping the restriction. -/
theorem symColView_map (col : List Row → List γ) (g : γ → δ) (df : List Row) (s : String) :
    symColView (fun df => (col df).map g) df s = (symColView col df s).map g := by
  simp only [symColView, List.zip_map_right, List.filter_map, List.map_map]
  rfl

/-! ## `calculate_returns` columns (core_engine.py:107-116) -/

/-- `self.df['Prev_Close'] = self.df.groupby('StockID')['收盤'].shift(1)`
(core_engine.py:109). -/
def Prev_Close_col (df : List Row) : List (Option ℚ) :=
  groupShift1 (fun r => r.StockID) Row.close df

/-- The numeric value of a boolean cell (pandas `True ↦ 1`, `False ↦ 0`). -/
def boolToRat (b : Bool) : ℚ := if b then 1 else 0

/-- `self.df['Prev_LU'] = self.df.groupby('StockID')['is_limit_up']
.shift(1).fillna(0)` (core_engine.py:116): the grouped shift of the
qualification flag with each `NaN` (group head) filled by `0`. -/
def Prev_LU_col (df : List Row) : List ℚ :=
  (groupShift1 (fun r => r.StockID) Row.is_limit_up df).map
    (fun o => (o.map boolToRat).getD 0)

theorem symColView_groupShift1 (f : Row → α) (df : List Row) (s : String) :
    symColView (groupShift1 (fun r => r.StockID) f) df s
      = prevElems none ((symRows df s).map f) := by
  have h := groupApply_symView (fun r => r.StockID)
    (fun grp rank => if rank = 0 then none else (grp.map f)[rank - 1]?) df s
  have hlen : (df.filter (fun q => decide (q.StockID = s))).length
      = ((df.filter (fun q => decide (q.StockID = s))).map f).length := by
    simp
  rw [symColView, groupShift1, h, symRows, hlen, range_map_shift_cell]

/-- **C9.** `Prev_Close` (core_engine.py:109), restricted to any one
symbol, is the one-step shift of that symbol's own close series: absent
(`NaN`) at the symbol's first record, equal to `close[i-1]` at every
later record `i`, and never drawn from another symbol's records — the
right-hand sides mention only the symbol's own sub-frame. -/
theorem prev_close_is_per_symbol_shift (df : List Row) (s : String) :
    symColView Prev_Close_col df s = prevElems none ((symRows df s).map Row.close)
  ∧ (0 < (symRows df s).length →
      (symColView Prev_Close_col df s)[0]? = some none)
  ∧ (∀ i, i + 1 < (symRows df s).length →
      (symColView Prev_Close_col df s)[i + 1]?
        = some (((symRows df s).map Row.close)[i]?)) := by
  have hmain : symColView Prev_Close_col df s
      = prevElems none ((symRows df s).map Row.close) :=
    symColView_groupShift1 Row.close df s
  refine ⟨hmain, ?_, ?_⟩
  · intro hpos
    rw [hmain, prevElems_head]
    cases hr : (symRows df s) with
    | nil => simp [hr] at hpos
    | cons x xs => simp
  · intro i hi
    rw [hmain, prevElems_succ]
    simpa using hi

/-- A concrete two-row frame used by the witnesses. -/
def dfW : List Row :=
  [⟨"AAA", 10, 11, 10, true⟩, ⟨"AAA", 21/2, 13, 12, false⟩]

theorem prev_close_witness :
    (symColView Prev_Close_col dfW "AAA")[0]? = some none
  ∧ (symColView Prev_Close_col dfW "AAA")[1]?
      = some (((symRows dfW "AAA").map Row.close)[0]?) :=
  ⟨(prev_close_is_per_symbol_shift dfW "AAA").2.1 (by decide),
   (prev_close_is_per_symbol_shift dfW "AAA").2.2 0 (by decide)⟩

/-- **C10.** `Prev_LU` (core_engine.py:115-116), restricted to any one
symbol, is the shift-and-fill of that symbol's own qualification flags:
exactly `0` (not absent) at the symbol's first record, the numeric value
of the previous record's `is_limit_up` at every later record, and
grouped per symbol — the last flag of one symbol never leaks into the
first record of the next, since the right-hand sides mention only the
symbol's own sub-frame. -/
theorem prev_lu_is_per_symbol_shift_filled (df : List Row) (s : String) :
    symColView Prev_LU_col df s
      = (prevElems none ((symRows df s).map Row.is_limit_up)).map
          (fun o => (o.map boolToRat).getD 0)
  ∧ (0 < (symRows df s).length → (symColView Prev_LU_col df s)[0]? = some 0)
  ∧ (∀ i, i + 1 < (symRows df s).length →
      (symColView Prev_LU_col df s)[i + 1]?
        = ((symRows df s)[i]?).map (fun r => boolToRat r.is_limit_up)) := by
  have hmain : symColView Prev_LU_col df s
      = (prevElems none ((symRows df s).map Row.is_limit_up)).map
          (fun o => (o.map boolToRat).getD 0) := by
    have hm := symColView_map (groupShift1 (fun r => r.StockID) Row.is_limit_up)
      (fun o => (o.map boolToRat).getD 0) df s
    rw [symColView_groupShift1] at hm
    exact hm
  refine ⟨hmain, ?_, ?_⟩
  · intro hpos
    rw [hmain, List.getElem?_map, prevElems_head]
    cases hr : (symRows df s) with
    | nil => simp [hr] at hpos
    | cons x xs => simp [boolToRat]
  · intro i hi
    have hlt : i < (symRows df s).length := by omega
    rw [hmain, List.getElem?_map, prevElems_succ _ _ _ (by simpa using hi),
      List.getElem?_map, List.getElem?_eq_getElem hlt]
    simp

theorem prev_lu_witness :
    (symColView Prev_LU_col dfW "AAA")[0]? = some 0
  ∧ (symColView Prev_LU_col dfW "AAA")[1]?
      = ((symRows dfW "AAA")[0]?).map (fun r => boolToRat r.is_limit_up) :=
  ⟨(prev_lu_is_per_symbol_shift_filled dfW "AAA").2.1 (by decide),
   (prev_lu_is_per_symbol_shift_filled dfW "AAA").2.2 0 (by decide)⟩

/-! ## `calculate_sequence_counts` (core_engine.py:135-140)

```
def get_sequence(series):
    blocks = (series != series.shift()).cumsum()
    return series * (series.groupby(blocks).cumcount() + 1)
self.df['Seq_LU_Count'] =
    self.df.groupby('StockID')['is_limit_up'].transform(get_sequence)
```
-/

/-- `series != series.shift()`: the change mask of a boolean series;
the head compares against `NaN` (`a` seeds the shift) and a comparison
with `NaN` is `True`. -/
def changeMask (a : Option Bool) (l : List Bool) : List Bool :=
  (l.zip (prevElems a l)).map (fun p => decide (some p.1 ≠ p.2))

/-- `.cumsum()`: inclusive prefix sums from a running accumulator. -/
def cumsum (acc : Nat) : List Nat → List Nat
  | [] => []
  | x :: xs => (acc + x) :: cumsum (acc + x) xs

/-- `.groupby(ids).cumcount()`: each position's count of earlier
occurrences of its own id. -/
def cumcount (pre : List Nat) : List Nat → List Nat
  | [] => []
  | b :: bs => pre.count b :: cumcount (pre ++ [b]) bs

/-- The numeric value of a boolean (`True ↦ 1`, `False ↦ 0`). -/
def boolToNat (b : Bool) : Nat := if b then 1 else 0

/-- The block ids `(series != series.shift()).cumsum()`. -/
def blocks (l : List Bool) : List Nat :=
  cumsum 0 ((changeMask none l).map boolToNat)

/-- `get_sequence` (core_engine.py:137-139): the series times the
one-based rank within the current block — multiplying by the boolean
forces every `False` position to exactly `0`. -/
def get_sequence (series : List Bool) : List Nat :=
  series.zipWith (fun b c => boolToNat b * (c + 1)) (cumcount [] (blocks series))

/-- The spec's description of the sequence counter (§4.3): at each
position, the count of consecutive `true` values ending there, forced
to `0` at every `false` position; `k` carries the count in. -/
def runCountsAux (k : Nat) : List Bool → List Nat
  | [] => []
  | b :: bs => (if b then k + 1 else 0) :: runCountsAux (if b then k + 1 else 0) bs

/-- Trailing-run counts of a boolean series, per the spec's words. -/
def runCounts (l : List Bool) : List Nat := runCountsAux 0 l

theorem changeMask_cons (a : Option Bool) (b : Bool) (bs : List Bool) :
    changeMask a (b :: bs) = decide (some b ≠ a) :: changeMask (some b) bs := by
  simp [changeMask, prevElems]

/-- Block/cumcount bookkeeping: with every recorded id at most `acc`,
the rank count at the current id equal to the carried run count for a
`true` head, and a zero carry otherwise, the vectorised pipeline equals
the spec's trailing-run recursion. -/
theorem get_sequence_aux (l : List Bool) :
    ∀ (prev : Option Bool) (acc k : Nat) (pre : List Nat),
      (∀ x ∈ pre, x ≤ acc) →
      (prev = some true → pre.count acc = k) →
      (prev = some true ∨ k = 0) →
      l.zipWith (fun b c => boolToNat b * (c + 1))
        (cumcount pre (cumsum acc ((changeMask prev l).map boolToNat)))
        = runCountsAux k l := by
  induction l with
  | nil => intro prev acc k pre _ _ _; rfl
  | cons b bs ih =>
      intro prev acc k pre hle hcnt hk
      have hcnt0 : pre.count (acc + 1) = 0 :=
        List.count_eq_zero.mpr (fun hmem => absurd (hle _ hmem) (by omega))
      have hstep1 : ∀ m, acc ≤ m → ∀ x ∈ pre ++ [m], x ≤ m := by
        intro m hm x hx
        rcases List.mem_append.mp hx with hx | hx
        · exact le_trans (hle x hx) hm
        · simp at hx; omega
      rw [changeMask_cons]
      simp only [List.map_cons, cumsum, cumcount, List.zipWith_cons_cons, runCountsAux]
      rcases prev with _ | pv
      · -- group head: the comparison with `NaN` registers a change
        have hk0 : k = 0 := hk.resolve_left (by simp)
        subst hk0
        cases b
        · have hd : boolToNat (decide (some false ≠ (none : Option Bool))) = 1 := by decide
          simp only [hd]
          refine congrArg₂ List.cons (by simp [boolToNat]) ?_
          exact ih (some false) (acc + 1) 0 (pre ++ [acc + 1]) (hstep1 _ (by omega))
            (by simp) (Or.inr rfl)
        · have hd : boolToNat (decide (some true ≠ (none : Option Bool))) = 1 := by decide
          simp only [hd]
          refine congrArg₂ List.cons (by simp [boolToNat, hcnt0]) ?_
          exact ih (some true) (acc + 1) 1 (pre ++ [acc + 1]) (hstep1 _ (by omega))
            (by intro _; simp [List.count_append, hcnt0]) (Or.inl rfl)
      · cases pv
        · -- previous row did not qualify: zero carry
          have hk0 : k = 0 := hk.resolve_left (by simp)
          subst hk0
          cases b
          · -- no change: same block, multiplication forces 0
            have hd : boolToNat (decide (some false ≠ some false)) = 0 := by decide
            simp only [hd, Nat.add_zero]
            refine congrArg₂ List.cons (by simp [boolToNat]) ?_
            exact ih (some false) acc 0 (pre ++ [acc]) (hstep1 _ (le_refl acc))
              (by simp) (Or.inr rfl)
          · -- change to a fresh block: run restarts at 1
            have hd : boolToNat (decide (some true ≠ some false)) = 1 := by decide
            simp only [hd]
            refine congrArg₂ List.cons (by simp [boolToNat, hcnt0]) ?_
            exact ih (some true) (acc + 1) 1 (pre ++ [acc + 1]) (hstep1 _ (by omega))
              (by intro _; simp [List.count_append, hcnt0]) (Or.inl rfl)
        · -- previous row qualified: the recorded rank carries the count
          have hck : pre.count acc = k := hcnt rfl
          cases b
          · -- run breaks: forced zero, carry resets
            have hd : boolToNat (decide (some false ≠ some true)) = 1 := by decide
            simp only [hd]
            refine congrArg₂ List.cons (by simp [boolToNat]) ?_
            exact ih (some false) (acc + 1) 0 (pre ++ [acc + 1]) (hstep1 _ (by omega))
              (by simp) (Or.inr rfl)
          · -- run continues: same block, rank climbs with the carry
            have hd : boolToNat (decide (some true ≠ some true)) = 0 := by decide
            simp only [hd, Nat.add_zero]
            refine congrArg₂ List.cons (by simp [boolToNat, hck]) ?_
            exact ih (some true) acc (k + 1) (pre ++ [acc]) (hstep1 _ (le_refl acc))
              (by intro _; simp [List.count_append, hck]) (Or.inl rfl)

/-- The vectorised `get_sequence` computes the spec's trailing-run
counts. -/
theorem get_sequence_eq_runCounts (l : List Bool) : get_sequence l = runCounts l := by
  have h := get_sequence_aux l none 0 0 [] (by simp) (by simp) (Or.inr rfl)
  simpa [get_sequence, blocks, runCounts] using h

theorem runCountsAux_length (l : List Bool) : ∀ k, (runCountsAux k l).length = l.length := by
  induction l with
  | nil => intro k; rfl
  | cons b bs ih => intro k; simp [runCountsAux, ih]

theorem runCounts_length (l : List Bool) : (runCounts l).length = l.length :=
  runCountsAux_length l 0

/-- A positive trailing-run count forces a `true` flag at that position. -/
theorem runCountsAux_pos (l : List Bool) :
    ∀ (k i : Nat), 0 < (runCountsAux k l).getD i 0 → l.getD i false = true := by
  induction l with
  | nil => intro k i h; simp [runCountsAux] at h
  | cons b bs ih =>
      intro k i h
      cases i with
      | zero =>
          cases b
          · simp [runCountsAux] at h
          · rfl
      | succ j => exact ih _ j (by simpa [runCountsAux] using h)

/-- `self.df['Seq_LU_Count'] = self.df.groupby('StockID')['is_limit_up']
.transform(get_sequence)` (core_engine.py:140): each row receives the
`get_sequence` output of its own symbol's flag series at the row's rank
within that symbol. -/
def Seq_LU_Count_col (df : List Row) : List Nat :=
  groupApply (fun r => r.StockID)
    (fun grp rank => (get_sequence (grp.map Row.is_limit_up)).getD rank 0) df

/-- The cell a grouped positional operation assigns at one index. -/
theorem groupApplyAux_getElem? (key : ρ → String) (g : List ρ → Nat → β) (whole : List ρ) :
    ∀ (rest pre : List ρ) (i : Nat) (r : ρ), rest[i]? = some r →
      (groupApplyAux key g whole pre rest)[i]?
        = some (g (whole.filter (fun q => decide (key q = key r)))
            ((pre ++ rest.take i).countP (fun q => decide (key q = key r)))) := by
  intro rest
  induction rest with
  | nil => intro pre i r h; simp at h
  | cons x xs ih =>
      intro pre i r h
      cases i with
      | zero =>
          simp only [List.getElem?_cons_zero, Option.some.injEq] at h
          subst h
          simp [groupApplyAux]
      | succ j =>
          simp only [List.getElem?_cons_succ] at h
          simp only [groupApplyAux, List.getElem?_cons_succ]
          rw [ih (pre ++ [x]) j r h, List.take_succ_cons]
          simp [List.append_assoc]

/-- A row sits in its own key's sub-frame at the rank counted over the
preceding rows. -/
theorem filter_rank_getElem? (p : ρ → Bool) :
    ∀ (l : List ρ) (i : Nat) (r : ρ), l[i]? = some r → p r = true →
      (l.filter p)[(l.take i).countP p]? = some r := by
  intro l
  induction l with
  | nil => intro i r h _; simp at h
  | cons x xs ih =>
      intro i r h hp
      cases i with
      | zero =>
          simp only [List.getElem?_cons_zero, Option.some.injEq] at h
          subst h
          simp [List.filter_cons, hp]
      | succ j =>
          simp only [List.getElem?_cons_succ] at h
          rw [List.take_succ_cons, List.countP_cons]
          by_cases hx : p x
          · simp only [List.filter_cons, hx, if_true, hx, decide_eq_true_eq]
            simpa [hx] using ih j r h hp
          · simp only [List.filter_cons, hx, if_false]
            simpa [hx] using ih j r h hp

/-- **C1.** `Seq_LU_Count` (core_engine.py:135-140).  Per symbol, in row
(date) order, the column is exactly the trailing count of consecutive
qualifying flags — reset to `0` on every non-qualifying row, computed
from the symbol's own sub-frame only (no carry across symbol
boundaries); the documented `[true, true, false, true] ↦ [1, 2, 0, 1]`
example holds; and a positive count at any row forces that row's
`is_limit_up` to be `true`. -/
theorem seq_lu_count_correct :
    (∀ (df : List Row) (s : String),
      symColView Seq_LU_Count_col df s = runCounts ((symRows df s).map Row.is_limit_up))
  ∧ get_sequence [true, true, false, true] = [1, 2, 0, 1]
  ∧ (∀ (df : List Row) (i : Nat) (r : Row), df[i]? = some r →
      0 < (Seq_LU_Count_col df).getD i 0 → r.is_limit_up = true) := by
  refine ⟨?_, by decide, ?_⟩
  · intro df s
    have h := groupApply_symView (fun r => r.StockID)
      (fun grp rank => (get_sequence (grp.map Row.is_limit_up)).getD rank 0) df s
    rw [symColView, Seq_LU_Count_col, h, get_sequence_eq_runCounts]
    have hlen : (df.filter (fun q => decide (q.StockID = s))).length
        = (runCounts ((df.filter (fun q => decide (q.StockID = s))).map Row.is_limit_up)).length := by
      rw [runCounts_length, List.length_map]
    rw [hlen, range_map_getD]
    rfl
  · intro df i r hdf hpos
    have hcell := groupApplyAux_getElem? (fun r => r.StockID)
      (fun grp rank => (get_sequence (grp.map Row.is_limit_up)).getD rank 0) df df [] i r hdf
    rw [List.getD_eq_getElem?_getD, Seq_LU_Count_col, groupApply, hcell] at hpos
    simp only [Option.getD_some, List.nil_append, get_sequence_eq_runCounts] at hpos
    rw [runCounts] at hpos
    have hflag := runCountsAux_pos _ _ _ hpos
    have hrank := filter_rank_getElem? (fun q => decide (q.StockID = r.StockID)) df i r hdf
      (by simp)
    rw [List.getD_eq_getElem?_getD, List.getElem?_map, hrank] at hflag
    simpa using hflag

/-- Witness for C1: the first row of the concrete frame carries a
positive count and, via the theorem, a `true` qualification flag. -/
theorem seq_lu_count_witness :
    (0:Nat) < (Seq_LU_Count_col dfW).getD 0 0
  ∧ (⟨"AAA", 10, 11, 10, true⟩ : Row).is_limit_up = true :=
  ⟨by decide, seq_lu_count_correct.2.2 dfW 0 ⟨"AAA", 10, 11, 10, true⟩ rfl (by decide)⟩

/-! ## `TaiwanRules.apply` and the ROTC reinforcement (C3, C5) -/

/-- A row as `TaiwanRules.apply` (market_rules.py:99-119) reads it.  The
method indexes the engineered columns `PrevClose` and `Ret_Day`
directly, so this row-level model takes them as given, defined values —
the classification-stage contract the claims describe; `MarketType` is
`none` (`NaN`) for a symbol the info join did not match. -/
structure TRow where
  StockID : String
  MarketType : Option String
  opn : ℚ
  close : ℚ
  PrevClose : ℚ
  Ret_Day : ℚ
deriving DecidableEq

/-- The classification fields `TaiwanRules.apply` writes; a cell is
`none` (`NaN`) when the source leaves it unassigned for that row. -/
structure TLabels where
  Limit_Price : ℚ
  is_limit_up : Option Bool
  is_limit_down : Option Bool
  is_anomaly : Option Bool
deriving DecidableEq

/-- `['上市', '上櫃']`: the listed / OTC boards. -/
def listedMarkets : List String := ["上市", "上櫃"]

/-- `TaiwanRules.apply`, one row (market_rules.py:99-119): the 10% limit
price from the previous close rounded to 2 decimals (line 101),
listed-board limit flags at the ±9.5% thresholds (lines 106-107), the
emerging-board (`興櫃`) suppression of `is_limit_up` with its 80%
anomaly flag (lines 110-112), and the global `|Ret_Day| > 0.11` extreme
filter applied last (line 118). -/
def taiwanApplyRow (r : TRow) : TLabels :=
  let listed := r.MarketType.elim false (fun m => decide (m ∈ listedMarkets))
  let emg := decide (r.MarketType = some "興櫃")
  { Limit_Price := round2 (r.PrevClose * (11/10))
    is_limit_up :=
      if listed then some (decide ((95:ℚ)/1000 ≤ r.Ret_Day))
      else if emg then some false
      else none
    is_limit_down :=
      if listed then some (decide (r.Ret_Day ≤ -((95:ℚ)/1000)))
      else none
    is_anomaly :=
      if (11:ℚ)/100 < |r.Ret_Day| then some true
      else if emg then some (decide ((8:ℚ)/10 < |r.Ret_Day|))
      else none }

/-- `is_rotc` (core_engine.py:94): the emerging/ROTC label, or a `.TWO`
symbol suffix. -/
def is_rotc (r : TRow) : Bool :=
  (r.MarketType.elim false (fun m => decide (m ∈ (["興櫃", "ROTC"] : List String))))
    || r.StockID.endsWith ".TWO"

/-- `ret_vs_prev` (core_engine.py:89-90): close over the per-symbol
shifted close, minus one; `NaN` at each symbol's first row. -/
def ret_vs_prev_col (df : List TRow) : List (Option ℚ) :=
  df.zipWith (fun r pc => pc.map (fun p => r.close / p - 1))
    (groupShift1 (fun r => r.StockID) TRow.close df)

/-- `is_strong` (core_engine.py:96-97): either return at or above 9.8%
(`0.098`); a comparison against a `NaN` ret-vs-prev is `False`. -/
def is_strong (r : TRow) (rvp : Option ℚ) : Bool :=
  (rvp.elim false (fun q => decide ((49:ℚ)/500 ≤ q)))
    || decide ((49:ℚ)/500 ≤ r.close / r.opn - 1)

/-- A row after the rule step and the ROTC reinforcement. -/
structure RefRow where
  row : TRow
  labels : TLabels
  is_rotc_strong : Bool
deriving DecidableEq

/-- Steps 4-5 of `execute` at row level: `TaiwanRules.apply`, then
`_apply_market_type_adjustments` (core_engine.py:49-52 and 81-105) —
the adjustment recomputes the per-symbol previous close, marks
rotc-and-strong rows, and forces their `is_limit_up` to true
(core_engine.py:103). -/
def taiwanThenAdjust (df : List TRow) : List RefRow :=
  df.zipWith
    (fun r rvp =>
      let lab := taiwanApplyRow r
      let strongR := is_rotc r && is_strong r rvp
      { row := r
        labels :=
          { lab with is_limit_up := if strongR then some true else lab.is_limit_up }
        is_rotc_strong := strongR })
    (ret_vs_prev_col df)

theorem zipWith_getElem? (f : α → β → γ) :
    ∀ (l1 : List α) (l2 : List β) (i : Nat),
      (List.zipWith f l1 l2)[i]? = (l1[i]?).bind (fun a => (l2[i]?).map (f a)) := by
  intro l1
  induction l1 with
  | nil => intro l2 i; simp
  | cons a as ih =>
      intro l2 i
      cases l2 with
      | nil => simp
      | cons b bs =>
          cases i with
          | zero => simp
          | succ j => simpa using ih bs j

/-- The concrete emerging-board row of the C3 counterexample: a 10%
intraday gain on `興櫃`. -/
def emergingStrongRow : TRow := ⟨"6666", some "興櫃", 10, 11, 10, 1/10⟩

theorem taiwanThenAdjust_emergingStrongRow :
    taiwanThenAdjust [emergingStrongRow]
      = [⟨emergingStrongRow, ⟨11, some true, none, some false⟩, true⟩] := by
  have habs : |(1:ℚ)/10| = 1/10 := abs_of_nonneg (by norm_num)
  norm_num [taiwanThenAdjust, ret_vs_prev_col, groupShift1, groupApply, groupApplyAux,
    taiwanApplyRow, is_rotc, is_strong, emergingStrongRow, listedMarkets, round2,
    roundHalfEven, Rat.floor, habs]
  decide

/-- **C3 counterexample.** The claim says every emerging-board row ends
with a false limit-up flag; here a `興櫃` row with a 10% intraday gain
ends with `is_limit_up = some true` (the rule step suppresses the flag,
market_rules.py:111, but the ROTC reinforcement of core_engine.py:103
forces it back on), falsifying the claim at this concrete input. -/
theorem emerging_flag_counterexample :
    emergingStrongRow.MarketType = some "興櫃"
  ∧ (taiwanThenAdjust [emergingStrongRow]).map (fun x => x.labels.is_limit_up)
      = [some true] := by
  refine ⟨rfl, ?_⟩
  rw [taiwanThenAdjust_emergingStrongRow]
  rfl

/-- **C3 (amended).** For every emerging-board (`興櫃`) row: the rule
step itself sets the qualification flag to false, but the ROTC
reinforcement overrides it, so the final flag is true exactly when the
row is "strong" (return vs the recomputed previous close, or vs the
open, at or above 9.8%); and the final anomaly flag is true exactly when
`|Ret_Day| > 11%` — the 80% emerging-board threshold is absorbed by the
global 11% extreme filter of market_rules.py:118. -/
theorem emerging_flag_amended (df : List TRow) (i : Nat) (r : TRow)
    (hr : df[i]? = some r) (hm : r.MarketType = some "興櫃") :
    ((taiwanThenAdjust df)[i]?).map (fun x => (x.labels.is_limit_up, x.labels.is_anomaly))
      = some (some (is_strong r ((ret_vs_prev_col df).getD i none)),
              some (decide ((11:ℚ)/100 < |r.Ret_Day|))) := by
  have hi : i < df.length := by
    by_contra hc
    rw [List.getElem?_eq_none (by omega)] at hr
    exact Option.noConfusion hr
  have hlen : (ret_vs_prev_col df).length = df.length := by
    simp [ret_vs_prev_col, groupShift1, groupApply_length]
  have hv : (ret_vs_prev_col df)[i]? = some ((ret_vs_prev_col df).getD i none) := by
    rw [List.getD_eq_getElem?_getD, List.getElem?_eq_getElem (by omega)]
    rfl
  rw [taiwanThenAdjust, zipWith_getElem?, hr, Option.some_bind, hv]
  have hrotc : is_rotc r = true := by simp [is_rotc, hm]
  have hlu : (taiwanApplyRow r).is_limit_up = some false := by
    simp [taiwanApplyRow, hm, listedMarkets]
  have han : (taiwanApplyRow r).is_anomaly = some (decide ((11:ℚ)/100 < |r.Ret_Day|)) := by
    by_cases hgt : (11:ℚ)/100 < |r.Ret_Day|
    · simp [taiwanApplyRow, hm, listedMarkets, hgt]
    · have hno : ¬ ((8:ℚ)/10 < |r.Ret_Day|) := by
        push_neg at hgt ⊢
        linarith
      simp [taiwanApplyRow, hm, listedMarkets, hgt, hno]
  simp only [Option.map_some']
  cases hst : is_strong r ((ret_vs_prev_col df).getD i none) <;>
    simp [hrotc, hlu, han, hst]

/-- Witness for the amended C3 at the concrete emerging row. -/
theorem emerging_flag_amended_witness :
    ((taiwanThenAdjust [emergingStrongRow])[0]?).map
        (fun x => (x.labels.is_limit_up, x.labels.is_anomaly))
      = some (some (is_strong emergingStrongRow
                ((ret_vs_prev_col [emergingStrongRow]).getD 0 none)),
              some (decide ((11:ℚ)/100 < |emergingStrongRow.Ret_Day|))) :=
  emerging_flag_amended [emergingStrongRow] 0 emergingStrongRow rfl rfl

/-! ## The locked-open scenario (C5) -/

/-- The scenario row of spec §8 for `classify_lu_type4`:
`open = high = low = 109.5`, `prev_close = 100`, no volume ratio. -/
def lockedOpenLRow : LRow := ⟨109.5, 109.5, 109.5, 100, none⟩

/-- The same scenario as `TaiwanRules.apply` sees it: a listed-board row
with `Ret_Day = 109.5/100 - 1 = 0.095`. -/
def lockedOpenTRow : TRow := ⟨"X", some "上市", 109.5, 109.5, 100, 19/200⟩

/-- **C5 counterexample.** In the documented locked-open scenario the
subtype `classify_lu_type4` assigns at the computed 110.00 limit price
is 2 (Gap-up), not the claimed 1 (Locked-open): the locked-open branch
tolerance is `limit_price - 0.01` (market_rules.py:33) and
`109.5 < 109.99`. -/
theorem locked_open_counterexample :
    classify_lu_type4 lockedOpenLRow (round2 (100 * (11/10))) = 2 := by
  have h110 : round2 (100 * (11/10)) = 110 := by
    norm_num [round2, roundHalfEven, Rat.floor]
  rw [h110]
  norm_num [classify_lu_type4, lockedOpenLRow]

/-- **C5 (amended).** In the locked-open scenario of spec §8,
`Limit_Price = 110.00` and `is_limit_up = true` hold as claimed, but the
behavioural subtype assigned is Gap-up (code 2), not Locked-open (1):
the first branch requires the session open at or above the limit price
minus a `0.01` price-unit tolerance, which `109.5` fails against
`110.00`, and the 9.5% opening return then matches the ≥ 7% gap-up
branch. -/
theorem locked_open_scenario :
    (taiwanApplyRow lockedOpenTRow).Limit_Price = 110
  ∧ (taiwanApplyRow lockedOpenTRow).is_limit_up = some true
  ∧ classify_lu_type4 lockedOpenLRow 110 = 2
  ∧ lockedOpenLRow.opn < (110:ℚ) - 1/100 := by
  refine ⟨?_, ?_, ?_, ?_⟩
  · norm_num [taiwanApplyRow, lockedOpenTRow, round2, roundHalfEven, Rat.floor]
  · norm_num [taiwanApplyRow, lockedOpenTRow, listedMarkets]
  · norm_num [classify_lu_type4, lockedOpenLRow]
  · norm_num [lockedOpenLRow]

/-! ## `classify_fail_type` with a missing limit price (C8) -/

/-- A concrete row with no `Limit_Price`, a flat day return and a
positive overnight return. -/
def failWRow : FRow := ⟨10, 10, 0, none, some false, some (1/100)⟩

/-- **C8 counterexample.** The claim says such a row is classified
neutral (0); instead the missing ceiling defaults to the row's close
(market_rules.py:49), the intraday high trivially reaches it, and the
row lands in failure code 2 — falsifying the claim at this concrete
input. -/
theorem fail_type_missing_limit_counterexample :
    failWRow.Limit_Price = none
  ∧ -((5:ℚ)/100) < failWRow.Ret_Day
  ∧ 0 < failWRow.Overnight_Alpha.getD 0
  ∧ classify_fail_type failWRow = 2 := by
  refine ⟨rfl, by norm_num [failWRow], by norm_num [failWRow], ?_⟩
  norm_num [classify_fail_type, failWRow]

/-- **C8 (amended).** A missing `Limit_Price` defaults to the row's
close, so classification never raises; under the claim's conditions
(day return > −5%, positive overnight return) the result is the neutral
code 0 only when the row is flagged limit-up or its high sits below its
close — otherwise the close-defaulted ceiling is reached by the high and
the row is classified 2 (rejected at the ceiling), never 1 or 4. -/
theorem fail_type_missing_limit (r : FRow) (h1 : r.Limit_Price = none)
    (h2 : -((5:ℚ)/100) < r.Ret_Day) (h3 : 0 < r.Overnight_Alpha.getD 0) :
    classify_fail_type r
      = if r.close ≤ r.high ∧ r.is_limit_up.getD false = false then 2 else 0 := by
  unfold classify_fail_type
  rw [h1]
  simp only [Option.getD_none]
  rw [if_neg (by linarith)]
  by_cases hc : r.close ≤ r.high ∧ r.is_limit_up.getD false = false
  · rw [if_pos ⟨hc.1, by simp [hc.2]⟩, if_pos hc]
  · rw [if_neg (by
        intro hcontra
        exact hc ⟨hcontra.1, by revert hcontra; cases r.is_limit_up.getD false <;> simp⟩),
      if_neg hc, if_neg (by linarith)]

/-- Witness for the amended C8 at the concrete row. -/
theorem fail_type_missing_limit_witness :
    classify_fail_type failWRow
      = if failWRow.close ≤ failWRow.high ∧ failWRow.is_limit_up.getD false = false
        then 2 else 0 :=
  fail_type_missing_limit failWRow rfl (by norm_num [failWRow]) (by norm_num [failWRow])

/-! ## The remaining `calculate_returns` columns and C6 -/

/-- `Ret_Day = 收盤 / Prev_Close - 1` (core_engine.py:110); `NaN`
propagates from a missing previous close. -/
def Ret_Day_col (df : List Row) : List (Option ℚ) :=
  df.zipWith (fun r pc => pc.map (fun p => r.close / p - 1)) (Prev_Close_col df)

/-- `Overnight_Alpha = 開盤 / Prev_Close - 1` (core_engine.py:111). -/
def Overnight_Alpha_col (df : List Row) : List (Option ℚ) :=
  df.zipWith (fun r pc => pc.map (fun p => r.opn / p - 1)) (Prev_Close_col df)

/-- `Ret_High = 最高 / Prev_Close - 1` (core_engine.py:112). -/
def Ret_High_col (df : List Row) : List (Option ℚ) :=
  df.zipWith (fun r pc => pc.map (fun p => r.high / p - 1)) (Prev_Close_col df)

/-- `self.df['Next_1D_Max'] = self.df['Ret_High']` (core_engine.py:113):
an alias of the backward-looking `Ret_High`, not a forward shift. -/
def Next_1D_Max_col (df : List Row) : List (Option ℚ) :=
  Ret_High_col df

/-- The columns `calculate_returns` (core_engine.py:107-116) creates
(`Prev_LU` only when an `is_limit_up` column exists): there is no
next-day minimum column of any spelling. -/
def calculate_returns_new_columns (hasLU : Bool) : List String :=
  ["Prev_Close", "Ret_Day", "Overnight_Alpha", "Ret_High", "Next_1D_Max"]
    ++ (if hasLU then ["Prev_LU"] else [])

/-- Next-day maxima as §4.4 of the spec describes them (spec-side
comparator for C6): next day's high over today's close, minus one,
within the symbol's own records; absent at a symbol's last record. -/
def nextDayMaxSpec (df : List Row) : List (Option ℚ) :=
  groupApply (fun r => r.StockID)
    (fun grp rank =>
      ((grp.map Row.high)[rank + 1]?).map
        (fun h => h / ((grp.map Row.close).getD rank 0) - 1)) df

/-- One symbol, three days: closes `10, 12, 15`, highs `11, 13, 16`. -/
def dfC6 : List Row :=
  [⟨"AAA", 10, 11, 10, false⟩, ⟨"AAA", 12, 13, 12, false⟩, ⟨"AAA", 15, 16, 15, false⟩]

/-- **C6.** At the concrete three-day symbol the code's `Next_1D_Max`
is `[NaN, 0.3, 1/3]` — today's high over the previous close, defined at
the symbol's last record and absent at its first — while the spec's
forward definition gives `[0.3, 1/3, NaN]`; and `calculate_returns`
creates no next-day minimum column at all. -/
theorem next_day_fields_divergence :
    Next_1D_Max_col dfC6 = [none, some (3/10), some (1/3)]
  ∧ nextDayMaxSpec dfC6 = [some (3/10), some (1/3), none]
  ∧ "Next_1D_Min" ∉ calculate_returns_new_columns true := by
  refine ⟨?_, ?_, by decide⟩
  · norm_num [Next_1D_Max_col, Ret_High_col, Prev_Close_col, groupShift1, groupApply,
      groupApplyAux, dfC6]
  · norm_num [nextDayMaxSpec, groupApply, groupApplyAux, dfC6]

/-! ## The `execute` pipeline (core_engine.py:13-77): C2, C4, C7 -/

/-- A raw `stock_prices` row as the loading query selects it
(core_engine.py:17-22).  The calendar date is encoded `YYYYMMDD`: the
SQL text filter `date >= '2023-01-01'` on ISO-format date strings is
order-isomorphic to the numeric comparison against `20230101`. -/
structure RawBar where
  date : Nat
  symbol : String
  opn : ℚ
  high : ℚ
  low : ℚ
  close : ℚ
  volume : ℚ
deriving DecidableEq

/-- A `stock_info` row (core_engine.py:41). -/
structure InfoRow where
  symbol : String
  market : String
  name : String
deriving DecidableEq

/-- A loaded row after the market-info merge (core_engine.py:42):
`MarketType` / `stock_name` are `NaN` when the left join has no match. -/
structure MergedRow where
  bar : RawBar
  MarketType : Option String
  stock_name : Option String
deriving DecidableEq

/-- `WHERE date >= '2023-01-01'` (core_engine.py:21). -/
def loadRaw (prices : List RawBar) : List RawBar :=
  prices.filter (fun b => decide (20230101 ≤ b.date))

/-- `sort_values(['StockID', '日期'])` (core_engine.py:36). -/
def sortBars (l : List RawBar) : List RawBar :=
  List.insertionSort
    (fun a b => a.symbol < b.symbol ∨ (a.symbol = b.symbol ∧ a.date ≤ b.date)) l

/-- `pd.merge(df, info_df, on='StockID', how='left')` (core_engine.py:42)
— a left join that keeps unmatched bars with `NaN` info columns and
duplicates a bar per matching info row — together with the `except`
fallback (lines 43-46) that writes literal `'Unknown'` columns when
`stock_info` cannot be read. -/
def mergeInfo (bars : List RawBar) : Option (List InfoRow) → List MergedRow
  | none => bars.map (fun b => ⟨b, some "Unknown", some "Unknown"⟩)
  | some info =>
      bars.flatMap (fun b =>
        match info.filter (fun i => decide (i.symbol = b.symbol)) with
        | [] => [⟨b, none, none⟩]
        | ms => ms.map (fun m => ⟨b, some m.market, some m.name⟩))

/-- The columns of the frame `execute` hands to `rules.apply`
(core_engine.py:17-49): the seven selected raw columns plus the two
merged info columns.  Neither `PrevClose` nor `Ret_Day` exists at that
point — `calculate_returns` runs only afterwards (line 55), and the
column it then creates is spelled `Prev_Close`, not `PrevClose`. -/
def mergedColumns : List String :=
  ["日期", "StockID", "開盤", "最高", "最低", "收盤", "成交量", "MarketType", "stock_name"]

/-- `TaiwanRules.apply` (market_rules.py:99-119) at column granularity:
each `df[c]` read raises a `KeyError` when `c` is absent, exactly as
pandas does.  Reads occur in source order — `PrevClose` at line 101,
then `Ret_Day` (line 106 when `MarketType` is present, line 114
otherwise, and line 118 in either case); assignments add their target
columns. -/
def taiwanApplyOnCols (cols : List String) : Except String (List String) :=
  if "PrevClose" ∉ cols then .error "KeyError: PrevClose"
  else if "Ret_Day" ∉ cols then .error "KeyError: Ret_Day"
  else .ok (cols ++ ["Limit_Price", "is_limit_up", "is_limit_down",
      "is_anomaly"].filter (fun c => decide (c ∉ cols)))

theorem taiwanApplyOnCols_merged :
    taiwanApplyOnCols mergedColumns = .error "KeyError: PrevClose" := rfl

/-- The outcome of one `execute` call: a normally returned status
string, or a Python exception escaping the call. -/
inductive RunResult where
  | status (msg : String)
  | exn (msg : String)
deriving DecidableEq

/-- The visible store: the two raw tables `execute` reads, and the
enriched table it would replace.  The enriched table's representation is
a type parameter — nothing below constructs or inspects it. -/
structure DB (τ : Type) where
  stock_prices : List RawBar
  stock_info : Option (List InfoRow)
  cleaned_daily_base : τ

/-- `AlphaCoreEngine.execute` (core_engine.py:13-77) for the TW market.
Load and filter the raw bars, returning the "no raw data" status on an
empty result (lines 26-28); sort and merge the market info (lines
36-46); then apply `TaiwanRules` (line 49).  That call's first column
read is `PrevClose`, absent from the frame (`taiwanApplyOnCols_merged`),
so a `KeyError` propagates out of `execute` before any later stage —
the `to_sql` replacement of `cleaned_daily_base` at line 66 is never
reached (the `.ok` branch below is provably unreachable) and the store
is returned unchanged on every path. -/
def execute (db : DB τ) : DB τ × RunResult :=
  let raw := loadRaw db.stock_prices
  if raw.isEmpty then (db, .status "Error: No raw data found")
  else
    let _df := mergeInfo (sortBars raw) db.stock_info
    match h : taiwanApplyOnCols mergedColumns with
    | .error e => (db, .exn e)
    | .ok _ => nomatch taiwanApplyOnCols_merged.symm.trans h

/-- **C2.** On any store whose raw table has rows dated 2023-01-01 or
later, `execute` does not return a status summary: it raises
`KeyError: PrevClose` inside `TaiwanRules.apply`, because the rule
step runs before `calculate_returns` has materialised any engineered
column. -/
theorem execute_raises_on_nonempty (τ : Type) (db : DB τ)
    (h : loadRaw db.stock_prices ≠ []) :
    (execute db).2 = .exn "KeyError: PrevClose" := by
  simp only [execute]
  rw [if_neg (by simpa [List.isEmpty_iff] using h)]
  rfl

/-- Witness for C2: one listed symbol, one 2023 row. -/
def dbW2 : DB Unit :=
  ⟨[⟨20230502, "2330", 100, 101, 99, 201/2, 1000⟩], some [⟨"2330", "上市", "TSMC"⟩], ()⟩

theorem execute_raises_witness :
    (execute dbW2).2 = .exn "KeyError: PrevClose" :=
  execute_raises_on_nonempty Unit dbW2 (by decide)

/-- Any bar of the input reappears, with some info attachment, in the
merged frame. -/
theorem mergeInfo_bar_mem (info : Option (List InfoRow)) :
    ∀ (bars : List RawBar) (b : RawBar), b ∈ bars →
      b ∈ (mergeInfo bars info).map MergedRow.bar := by
  cases info with
  | none =>
      intro bars b hb
      simp only [mergeInfo, List.map_map]
      exact List.mem_map.mpr ⟨b, hb, rfl⟩
  | some rows =>
      intro bars
      induction bars with
      | nil => intro b hb; simp at hb
      | cons x xs ih =>
          intro b hb
          simp only [mergeInfo, List.flatMap_cons, List.map_append, List.mem_append]
          rcases List.mem_cons.mp hb with hbx | hb
          · subst hbx
            left
            rcases hm : rows.filter (fun i => decide (i.symbol = b.symbol)) with _ | ⟨m, ms⟩
            · simp [hm]
            · simp [hm, List.map_map]
          · right
            simpa only [mergeInfo] using ih b hb

/-- The ghost row of the spec's scenario: zero volume, flat OHLC. -/
def ghostBar : RawBar := ⟨20230301, "AAA", 10, 10, 10, 10, 0⟩

/-- A store containing the ghost row and one genuine row. -/
def dbGhost : DB Unit :=
  ⟨[⟨20230302, "AAA", 10, 11, 9, 21/2, 500⟩, ghostBar],
   some [⟨"AAA", "上市", "Alpha"⟩], ()⟩

/-- **C4.** `execute` contains no ghost-row filter: the zero-volume,
flat-OHLC scenario row survives the load, sort and merge intact —
it sits in the frame handed to the rule step — and the run then aborts
with the missing-column `KeyError`, so the refined output said to
exclude the row is never produced at all. -/
theorem ghost_row_not_dropped :
    ghostBar ∈ (mergeInfo (sortBars (loadRaw dbGhost.stock_prices))
        dbGhost.stock_info).map MergedRow.bar
  ∧ (execute dbGhost).2 = .exn "KeyError: PrevClose" := by
  constructor
  · have h1 : ghostBar ∈ loadRaw dbGhost.stock_prices := by
      simp only [loadRaw, dbGhost, List.mem_filter]
      exact ⟨by simp, by decide⟩
    have h2 : ghostBar ∈ sortBars (loadRaw dbGhost.stock_prices) :=
      ((List.perm_insertionSort _ _).mem_iff).mpr h1
    exact mergeInfo_bar_mem dbGhost.stock_info _ ghostBar h2
  · exact execute_raises_on_nonempty Unit dbGhost (by decide)

/-- `execute` returns the store unchanged on every path: the empty-load
branch returns before the write, and the non-empty branch raises before
the write (index creation and `VACUUM` do not alter table contents). -/
theorem execute_fst (τ : Type) (db : DB τ) : (execute db).1 = db := by
  simp only [execute]
  split <;> rfl

/-- **C7.** Running the refinement twice on an unchanged raw store
leaves `cleaned_daily_base` identical to running it once — for every
store state.  On this code the property holds degenerately: `execute`
never modifies the store at all (an empty load returns its status
before the write, and a non-empty load raises `KeyError` in the rule
step before the `to_sql` write at core_engine.py:66), so the prior
enriched table survives any number of runs byte-identically. -/
theorem refine_idempotent (τ : Type) (db : DB τ) :
    ((execute (execute db).1).1).cleaned_daily_base
      = ((execute db).1).cleaned_daily_base := by
  rw [execute_fst, execute_fst]

end AlphaLab
